import Mathlib

/-!
Shallow embedding of the hybrid-retrieval core of the `rag-hackathon`
repository: the shared tokenizer, the BM25 index builder (`bm25_index.py`),
the BM25 scorer and query pipeline (`bm25_query.py`), the hybrid merger and
prompt assembler (`answer_hybsrch.py` / `answer.py`).

Python dictionaries are modelled as insertion-ordered association lists
(`alookup` / `aset`) or, where order is irrelevant, as total functions
defaulting to `0` (mirroring `defaultdict(int)`).  Floating point values are
modelled exactly: rational arithmetic as `ℚ` and `math.log` as `Real.log`
over `ℝ`.  Python statements that can raise are embedded with `Except`.
-/

set_option maxHeartbeats 1000000

/-- Lookup in an insertion-ordered association list: the model of `d[k]`
    returning `some` when the key is present (`k in d` / `d.get(k)`). -/
def alookup {α : Type} (m : List (String × α)) (k : String) : Option α :=
  match m with
  | [] => none
  | (k2, v) :: rest => if k2 = k then some v else alookup rest k

/-- Assignment `d[k] = v` on an insertion-ordered association list: replaces
    the value at an existing key in place, otherwise appends at the end
    (Python dict insertion-order semantics). -/
def aset {α : Type} (m : List (String × α)) (k : String) (v : α) :
    List (String × α) :=
  match m with
  | [] => [(k, v)]
  | (k2, v2) :: rest => if k2 = k then (k2, v) :: rest else (k2, v2) :: aset rest k v

/-- `sum(d.values())` for an association list with `Nat` values. -/
def sumValues (m : List (String × ℕ)) : ℕ :=
  (m.map Prod.snd).sum

/-- Model of Python `list.index` that returns the index of the first
    occurrence, or `none` where Python raises `ValueError`. -/
def pyIndex (xs : List String) (x : String) : Option ℕ :=
  match xs with
  | [] => none
  | y :: rest => if y = x then some 0 else (pyIndex rest x).map (· + 1)

/-- Pointwise increment of a counter map, the model of
    `defaultdict(int)`'s `d[k] += 1`. -/
def bumpCount (m : String → ℕ) (k : String) : String → ℕ :=
  fun t => if t = k then m t + 1 else m t

/-- Character-level worker for Python `str.split()`: `cur` holds the
    reversed characters of the word being read. -/
def wordsAux (cur : List Char) : List Char → List (List Char)
  | [] => if cur.isEmpty then [] else [cur.reverse]
  | c :: cs =>
    if c.isWhitespace then
      if cur.isEmpty then wordsAux [] cs else cur.reverse :: wordsAux [] cs
    else wordsAux (c :: cur) cs

/-- Model of Python `str.split()` with no argument: split on whitespace runs,
    discarding empty pieces. -/
def pySplit (s : String) : List String :=
  (wordsAux [] s.data).map (fun cs => ⟨cs⟩)

/-- Model of Python `str.lower()`: lowercase character by character. -/
def strLower (s : String) : String :=
  ⟨s.data.map Char.toLower⟩

/-- Model of Python `str.isalnum()`: nonempty and every character
    alphanumeric. -/
def strIsAlnum (s : String) : Bool :=
  !s.data.isEmpty && s.data.all Char.isAlphanum

namespace BmIndex

/-- `tokenize` from `bm25_index.py`: whitespace-split, keep alphanumeric
    words of length `> 2`, lowercase the survivors. -/
def tokenize (text : String) : List String :=
  ((pySplit text).filter (fun w => strIsAlnum w && decide (2 < w.length))).map
    strLower

end BmIndex

namespace BmQuery

/-- `tokenize` from `bm25_query.py` (verbatim the same comprehension). -/
def tokenize (text : String) : List String :=
  ((pySplit text).filter (fun w => strIsAlnum w && decide (2 < w.length))).map
    strLower

end BmQuery

/-! ## Index builder (`bm25_index.py`, `build_bm25_index`) -/

/-- Accumulator for the document pass of `build_bm25_index`:
    `df` and `tf` are `defaultdict(int)`-style counter maps, `doc_len` is the
    insertion-ordered `doc_len` dict. -/
structure BuildAcc where
  df : String → ℕ
  tf : String → String → ℕ
  doc_len : List (String × ℕ)

/-- Inner token loop of `build_bm25_index`: bump `tf[doc_id][token]`, and bump
    `df[token]` only when `token` is not yet in the per-document `seen` set.
    The state is `(tf[doc_id], df, seen)`. -/
def tokStep (st : (String → ℕ) × (String → ℕ) × List String) (tok : String) :
    (String → ℕ) × (String → ℕ) × List String :=
  if tok ∈ st.2.2 then (bumpCount st.1 tok, st.2.1, st.2.2)
  else (bumpCount st.1 tok, bumpCount st.2.1 tok, tok :: st.2.2)

/-- One iteration of the document loop of `build_bm25_index`: tokenize the
    document, record its length, and fold the token loop (with a fresh
    `seen` set) over its tokens. -/
def docStep (st : BuildAcc) (doc : String × String) : BuildAcc :=
  let toks := BmIndex.tokenize doc.2
  let r := toks.foldl tokStep (st.tf doc.1, st.df, [])
  { df := r.2.1
    tf := fun d => if d = doc.1 then r.1 else st.tf d
    doc_len := aset st.doc_len doc.1 toks.length }

/-- Runtime failures of the index build.  `zeroDivision` models Python's
    `ZeroDivisionError` from `sum(doc_len.values()) / N`; `emptyCorpus` is
    the guarded error the specification's design calls for (modelled from
    the spec; no code path in `bm25_index.py` produces it). -/
inductive BuildErr where
  | zeroDivision
  | emptyCorpus
deriving DecidableEq

/-- Model of Python's `/` on `sum / N`: raises `ZeroDivisionError` when the
    divisor is zero. -/
def pyDiv (a : ℚ) (n : ℕ) : Except BuildErr ℚ :=
  if n = 0 then .error .zeroDivision else .ok (a / n)

/-- The statistics record persisted by `build_bm25_index` (the `ids`, `texts`
    and `metas` passthrough lists come verbatim from the external store and
    carry no computation). -/
structure Bm25Stats where
  avgdl : ℚ
  N : ℕ
  doc_len : List (String × ℕ)
  df : String → ℕ
  tf : String → String → ℕ

/-- Pure core of `build_bm25_index` over the corpus snapshot, a list of
    `(doc_id, text)` pairs: one tokenizing pass accumulating `tf`, `df` and
    `doc_len`, then `avgdl = sum(doc_len.values()) / N`. -/
def build_bm25_index (docs : List (String × String)) :
    Except BuildErr Bm25Stats :=
  let st := docs.foldl docStep ⟨fun _ => 0, fun _ _ => 0, []⟩
  match pyDiv (sumValues st.doc_len : ℚ) docs.length with
  | .error e => .error e
  | .ok avgdl => .ok ⟨avgdl, docs.length, st.doc_len, st.df, st.tf⟩

/-! ## BM25 scorer (`bm25_query.py`, `score_bm25`) -/

/-- Python runtime errors surfaced by the query module: `keyError` models
    `KeyError` (missing dict key), `typeError` models `TypeError` (value of
    the wrong dynamic type), `indexError` models `IndexError` (list index out
    of range). -/
inductive PyErr where
  | keyError
  | typeError
  | indexError
deriving DecidableEq

/-- `idf = math.log(1 + (N - df_term + 0.5) / (df_term + 0.5))` from
    `score_bm25`. -/
noncomputable def bm25Idf (N dfTerm : ℕ) : ℝ :=
  Real.log (1 + ((N : ℝ) - (dfTerm : ℝ) + 1/2) / ((dfTerm : ℝ) + 1/2))

/-- `norm = (f + delta) * (k1 + 1) / (f + k1 * (1 - b + b * doc_len / avgdl))`
    from `score_bm25`. -/
noncomputable def bm25Norm (f dl : ℕ) (avgdl k1 b delta : ℝ) : ℝ :=
  ((f : ℝ) + delta) * (k1 + 1) /
    ((f : ℝ) + k1 * (1 - b + b * (dl : ℝ) / avgdl))

/-- `df.get(term, 0)` from `score_bm25`. -/
def dfGet (df : List (String × ℕ)) (term : String) : ℕ :=
  (alookup df term).getD 0

/-- Inner loop of `score_bm25` for one document: fold over the query tokens,
    adding `idf * norm` for each token present in `tf[doc_id]`.  The
    document length arrives as `alookup doc_len doc_id`; a missing entry
    raises `KeyError` exactly when it is dereferenced, i.e. at the first
    query token present in the document. -/
noncomputable def bm25DocScore (qts : List String) (tfd : List (String × ℕ))
    (df : List (String × ℕ)) (dl : Option ℕ) (avgdl : ℝ) (N : ℕ)
    (k1 b delta : ℝ) : Except PyErr ℝ :=
  qts.foldlM (fun s term =>
    match alookup tfd term with
    | none => .ok s
    | some f =>
      match dl with
      | none => .error .keyError
      | some dlv =>
        .ok (s + bm25Idf N (dfGet df term) * bm25Norm f dlv avgdl k1 b delta)) 0

/-- Closed form of the per-document total: the sum over the query token list
    of the `idf * norm` contribution of each token present in the document
    (tokens absent from the document contribute `0`). -/
noncomputable def bm25DocVal (qts : List String) (tfd : List (String × ℕ))
    (df : List (String × ℕ)) (dl : ℕ) (avgdl : ℝ) (N : ℕ)
    (k1 b delta : ℝ) : ℝ :=
  (qts.map (fun term =>
    match alookup tfd term with
    | none => 0
    | some f => bm25Idf N (dfGet df term) * bm25Norm f dl avgdl k1 b delta)).sum

/-- `score_bm25` from `bm25_query.py`: iterate the documents of `tf` in
    order, score each against the query tokens, and keep the strictly
    positive scores as an insertion-ordered mapping `doc_id → score`. -/
noncomputable def score_bm25 (qts : List String)
    (tf : List (String × List (String × ℕ))) (df : List (String × ℕ))
    (doc_len : List (String × ℕ)) (avgdl : ℝ) (N : ℕ) (k1 b delta : ℝ) :
    Except PyErr (List (String × ℝ)) :=
  match tf with
  | [] => .ok []
  | (d, tfd) :: rest => do
    let s ← bm25DocScore qts tfd df (alookup doc_len d) avgdl N k1 b delta
    let tail ← score_bm25 qts rest df doc_len avgdl N k1 b delta
    .ok (if 0 < s then (d, s) :: tail else tail)

/-- The score a result mapping assigns to a document; `0` for a document not
    retained (and for a run that raised). -/
noncomputable def scoreOf (r : Except PyErr (List (String × ℝ)))
    (d : String) : ℝ :=
  match r with
  | .error _ => 0
  | .ok scores => ((alookup scores d).getD 0)

/-! ## Ranking and id resolution (`bm25_query.py`, `query_bm25`) -/

/-- `sorted(scores.items(), key=lambda x: x[1], reverse=True)[:top_k]`:
    a stable descending sort on the score followed by truncation. -/
noncomputable def rankTopK (scores : List (String × ℝ)) (topK : ℕ) :
    List (String × ℝ) :=
  (scores.mergeSort (fun a b => decide (b.2 ≤ a.2))).take topK

/-- The resolution loop of `query_bm25`: for each ranked `(doc_id, score)`,
    `ids.index(doc_id)` (a `ValueError`, i.e. a missing id, is caught and the
    hit skipped), then `texts[idx]` and `metas[idx]` (an `IndexError` there
    is *not* caught and propagates). -/
def resolveHits {μ : Type} (ids : List String) (texts : List String)
    (metas : List μ) : List (String × ℝ) → Except PyErr (List (String × μ × ℝ))
  | [] => .ok []
  | (d, s) :: rest =>
    match pyIndex ids d with
    | none => resolveHits ids texts metas rest
    | some i =>
      match texts[i]?, metas[i]? with
      | some tx, some m => do
        let r ← resolveHits ids texts metas rest
        .ok ((tx, m, s) :: r)
      | _, _ => .error .indexError

/-! ## Snapshot loading (`bm25_query.py`, `query_bm25`) -/

/-- JSON values as produced by `json.load`. -/
inductive JVal where
  | null
  | boolv (b : Bool)
  | num (q : ℚ)
  | str (s : String)
  | arr (xs : List JVal)
  | obj (fields : List (String × JVal))

/-- `index["key"]` on a loaded JSON value: `KeyError` when the key is absent,
    `TypeError` when the value is not an object. -/
def jGet : JVal → String → Except PyErr JVal
  | .obj fields, k =>
    match alookup fields k with
    | some v => .ok v
    | none => .error .keyError
  | _, _ => .error .typeError

/-- The eight components unpacked from the snapshot by `query_bm25`, still
    untyped JSON values. -/
structure RawIndex where
  tf : JVal
  df : JVal
  doc_len : JVal
  avgdl : JVal
  N : JVal
  ids : JVal
  texts : JVal
  metas : JVal

/-- The unpacking block of `query_bm25`
    (`tf = index["tf"]` … `metas = index["metas"]`); any missing key raises
    `KeyError`, which the function does not catch. -/
def unpackIndex (j : JVal) : Except PyErr RawIndex := do
  let tf ← jGet j "tf"
  let df ← jGet j "df"
  let doc_len ← jGet j "doc_len"
  let avgdl ← jGet j "avgdl"
  let N ← jGet j "N"
  let ids ← jGet j "ids"
  let texts ← jGet j "texts"
  let metas ← jGet j "metas"
  .ok ⟨tf, df, doc_len, avgdl, N, ids, texts, metas⟩

/-- Decode a JSON number. -/
def jNum : JVal → Except PyErr ℚ
  | .num q => .ok q
  | _ => .error .typeError

/-- Decode a JSON nonnegative integer. -/
def jNat (v : JVal) : Except PyErr ℕ := do
  let q ← jNum v
  if q.den = 1 ∧ 0 ≤ q.num then .ok q.num.toNat else .error .typeError

/-- Decode a JSON string. -/
def jStr : JVal → Except PyErr String
  | .str s => .ok s
  | _ => .error .typeError

/-- Decode a JSON array of strings. -/
def jStrList : JVal → Except PyErr (List String)
  | .arr xs => xs.mapM jStr
  | _ => .error .typeError

/-- Decode a JSON object with integer values (`df`, `doc_len`). -/
def jNatMap : JVal → Except PyErr (List (String × ℕ))
  | .obj fs => fs.mapM (fun p => do
      let n ← jNat p.2
      pure (p.1, n))
  | _ => .error .typeError

/-- Decode the nested `tf` object. -/
def jTfMap : JVal → Except PyErr (List (String × List (String × ℕ)))
  | .obj fs => fs.mapM (fun p => do
      let m ← jNatMap p.2
      pure (p.1, m))
  | _ => .error .typeError

/-- Decode a JSON array (the `metas` passthrough list stays untyped). -/
def jArr : JVal → Except PyErr (List JVal)
  | .arr xs => .ok xs
  | _ => .error .typeError

/-- The typed snapshot consumed by scoring, ranking and resolution. -/
structure TypedIndex where
  tf : List (String × List (String × ℕ))
  df : List (String × ℕ)
  doc_len : List (String × ℕ)
  avgdl : ℝ
  N : ℕ
  ids : List String
  texts : List String
  metas : List JVal

/-- Typing of the unpacked components.  `bm25_query.py` has no explicit
    validation step: a component of the wrong dynamic type raises
    `TypeError` at its first use, which this decoding surfaces up front. -/
noncomputable def decodeIndex (raw : RawIndex) : Except PyErr TypedIndex := do
  let tf ← jTfMap raw.tf
  let df ← jNatMap raw.df
  let doc_len ← jNatMap raw.doc_len
  let avgdlQ ← jNum raw.avgdl
  let N ← jNat raw.N
  let ids ← jStrList raw.ids
  let texts ← jStrList raw.texts
  let metas ← jArr raw.metas
  .ok ⟨tf, df, doc_len, (avgdlQ : ℝ), N, ids, texts, metas⟩

/-- The query pipeline of `query_bm25` after the snapshot is available:
    tokenize the query, score with the default hyperparameters
    `k1 = 1.5, b = 0.75, delta = 1.0`, rank, truncate to `top_k`, and resolve
    doc ids to `(text, meta, score)` triples. -/
noncomputable def query_bm25_core (idx : TypedIndex) (query : String)
    (topK : ℕ) : Except PyErr (List (String × JVal × ℝ)) := do
  let scores ← score_bm25 (BmQuery.tokenize query) idx.tf idx.df idx.doc_len
    idx.avgdl idx.N (3/2) (3/4) 1
  resolveHits idx.ids idx.texts idx.metas (rankTopK scores topK)

/-- `query_bm25` from `bm25_query.py`, parameterized over the outcome of
    opening and `json.load`-ing the snapshot file: a load failure is caught
    and an empty result list returned; errors raised after the `try` block
    (unpacking, typing, scoring, resolution) propagate to the caller. -/
noncomputable def query_bm25 (loadRes : Except String JVal) (query : String)
    (topK : ℕ) : Except PyErr (List (String × JVal × ℝ)) :=
  match loadRes with
  | .error _ => .ok []
  | .ok j => do
    let raw ← unpackIndex j
    let idx ← decodeIndex raw
    query_bm25_core idx query topK

/-! ## Hybrid merger (`answer_hybsrch.py`, `retrieve`) -/

/-- Chunk metadata as stored in Chroma; `meta.get(...)` returns `None` for a
    missing key, hence the `Option` fields. -/
structure DocMeta where
  source_file : Option String
  page_number : Option Int
deriving DecidableEq

/-- A retrieval hit `(doc, meta, score, source)`; `origin` is the source tag
    string, `"vector"` or `"bm25"`. -/
structure Hit where
  text : String
  meta : DocMeta
  score : ℚ
  origin : String
deriving DecidableEq

/-- The deduplication key `(meta.get("source_file"), meta.get("page_number"))`. -/
def locKey (h : Hit) : Option String × Option Int :=
  (h.meta.source_file, h.meta.page_number)

/-- The dedup pass of `retrieve`: walk the concatenated hits with a `seen`
    set of locator keys, appending a hit only when its key is new. -/
def dedupByKey (hits : List Hit) : List Hit :=
  (hits.foldl (fun st h =>
    if locKey h ∈ st.1 then st else (locKey h :: st.1, st.2 ++ [h])) ([], [])).2

/-- Recursive specification of first-occurrence deduplication: keep the head,
    drop every later hit with the same locator key. -/
def pruneDups : List Hit → List Hit
  | [] => []
  | h :: rest => h :: pruneDups (rest.filter (fun g => locKey g ≠ locKey h))
termination_by l => l.length
decreasing_by
  simp only [List.length_cons]
  exact Nat.lt_succ_of_le (List.length_filter_le _ _)

/-- The merge step of `retrieve` in `answer_hybsrch.py`: concatenate vector
    hits before BM25 hits, deduplicate by locator key keeping first
    occurrences, stable-sort descending by score, truncate to `top_k`. -/
def retrieveMerge (vectorHits bm25Hits : List Hit) (topK : ℕ) : List Hit :=
  let combined := dedupByKey (vectorHits ++ bm25Hits)
  (combined.mergeSort (fun a b => decide (b.score ≤ a.score))).take topK

/-! ## Prompt assembly (`answer.py`, `build_prompt`) -/

/-- A hit as consumed by `answer.py`'s `build_prompt`: `(text, meta, score)`. -/
structure VHit where
  text : String
  meta : DocMeta
  score : ℚ
deriving DecidableEq

/-- The selection step of `build_prompt`: keep hits with
    `score >= MIN_SCORE`; if none survive, fall back to the first two hits
    of the incoming list. -/
def selectRelevant (hits : List VHit) (minScore : ℚ) : List VHit :=
  let relevant := hits.filter (fun h => minScore ≤ h.score)
  if relevant.isEmpty then hits.take 2 else relevant

/-- The citation label `f"{src} p.{page}"` with `"?"` for missing metadata. -/
def hitLabel (h : VHit) : String :=
  (h.meta.source_file.getD "?") ++ " p." ++
    (match h.meta.page_number with
     | some p => toString p
     | none => "?")

/-- One context block `f"[{i}] {label}\n{chunk}"`. -/
def mkBlock (i : ℕ) (h : VHit) : String :=
  "[" ++ toString i ++ "] " ++ hitLabel h ++ "\n" ++ h.text

/-- `enumerate(relevant, 1)` over the surviving hits, emitting the numbered
    context blocks. -/
def numberBlocks (i : ℕ) : List VHit → List String
  | [] => []
  | h :: rest => mkBlock i h :: numberBlocks (i + 1) rest

/-- `"\n\n".join(blocks)`. -/
def joinBlocks : List String → String
  | [] => ""
  | [b] => b
  | b :: rest => b ++ "\n\n" ++ joinBlocks rest

/-- The character-budget truncation of `build_prompt`: contexts longer than
    8000 characters are cut at the character boundary and a truncation
    marker appended. -/
def truncateCtx (ctx : String) : String :=
  if 8000 < ctx.length then (ctx.take 8000) ++ "\n… [truncated]" else ctx

/-- The assembled context string of `build_prompt` for a given hit list and
    threshold: selection, numbered blocks, blank-line join, truncation. -/
def promptContext (hits : List VHit) (minScore : ℚ) : String :=
  truncateCtx (joinBlocks (numberBlocks 1 (selectRelevant hits minScore)))

/-! ## Helper lemmas -/

lemma string_ne_empty_of_length_pos {s : String} (h : 0 < s.length) : s ≠ "" := by
  intro hEq
  subst hEq
  simp at h

lemma mkBlock_length_pos (i : ℕ) (h : VHit) : 0 < (mkBlock i h).length := by
  unfold mkBlock
  simp only [String.length_append]
  have h1 : "[".length = 1 := rfl
  omega

lemma joinBlocks_head_le (b : String) (rest : List String) :
    b.length ≤ (joinBlocks (b :: rest)).length := by
  cases rest with
  | nil => simp [joinBlocks]
  | cons r rs =>
    simp only [joinBlocks, String.length_append]
    omega

lemma truncateCtx_ne_empty {ctx : String} (h : 0 < ctx.length) :
    truncateCtx ctx ≠ "" := by
  unfold truncateCtx
  split
  · apply string_ne_empty_of_length_pos
    rw [String.length_append]
    have h1 : 0 < ("\n… [truncated]").length := by decide
    omega
  · exact string_ne_empty_of_length_pos h

lemma promptContext_ne_empty (hits : List VHit) (minScore : ℚ)
    (h : selectRelevant hits minScore ≠ []) :
    promptContext hits minScore ≠ "" := by
  unfold promptContext
  obtain ⟨v, rest, hEq⟩ : ∃ v rest, selectRelevant hits minScore = v :: rest := by
    cases hSel : selectRelevant hits minScore with
    | nil => exact absurd hSel h
    | cons v rest => exact ⟨v, rest, rfl⟩
  rw [hEq]
  apply truncateCtx_ne_empty
  calc 0 < (mkBlock 1 v).length := mkBlock_length_pos 1 v
    _ ≤ _ := by
        simpa [numberBlocks] using joinBlocks_head_le (mkBlock 1 v) (numberBlocks 2 rest)

/-! ## C8: the tokenizer -/

/-- C8: `tokenize` is a pure function of the input text (hence deterministic
    across calls); it yields the whitespace-separated words that are entirely
    alphanumeric and longer than two characters, lowercased; and the
    build-time tokenizer of `bm25_index.py` agrees extensionally with the
    query-time tokenizer of `bm25_query.py`. -/
theorem tokenize_spec (text : String) :
    BmIndex.tokenize text = BmQuery.tokenize text ∧
    BmQuery.tokenize text =
      ((pySplit text).filter
        (fun w => strIsAlnum w && decide (2 < w.length))).map strLower :=
  ⟨rfl, rfl⟩

/-! ## C6: index build on an empty corpus -/

/-- C6 counterexample: on a zero-document corpus `build_bm25_index` fails
    with the (unguarded) division-by-zero error from
    `avgdl = sum(doc_len.values()) / N`, not with the guarded `EmptyCorpus`
    error the claim describes. -/
theorem build_empty_cex :
    build_bm25_index [] = .error .zeroDivision ∧
    BuildErr.zeroDivision ≠ BuildErr.emptyCorpus :=
  ⟨rfl, by decide⟩

/-- C6 amended: on a corpus with zero documents the index builder fails with
    an unhandled division-by-zero error (there is no `EmptyCorpus` guard in
    the code). -/
theorem build_empty_raises_zero_division (docs : List (String × String))
    (h : docs.length = 0) :
    build_bm25_index docs = .error .zeroDivision := by
  rw [List.length_eq_zero] at h
  subst h
  rfl

theorem build_empty_raises_zero_division_witness :
    ([] : List (String × String)).length = 0 ∧
    build_bm25_index [] = .error .zeroDivision :=
  ⟨by decide, build_empty_raises_zero_division [] (by decide)⟩

/-! ## C9: snapshot load failure handling -/

/-- C9 counterexample: a snapshot that loads as valid JSON but fails
    structural validation (here: an object with no `"tf"` field) makes
    `query_bm25` raise `KeyError` to the caller instead of returning the
    empty result list the claim describes. -/
theorem query_load_error_cex :
    query_bm25 (.ok (JVal.obj [])) "question" 5 = .error .keyError := rfl

/-- C9 amended: when opening or `json.load`-ing the snapshot fails, the
    failure is caught and `query_bm25` returns the empty list; but a
    snapshot that parses while lacking a required field (e.g. `"tf"`) raises
    an uncaught `KeyError` instead. -/
theorem query_load_error_spec (loadRes : Except String JVal) (query : String)
    (topK : ℕ) :
    (∀ e, loadRes = .error e → query_bm25 loadRes query topK = .ok []) ∧
    (∀ fields, loadRes = .ok (JVal.obj fields) → alookup fields "tf" = none →
      query_bm25 loadRes query topK = .error .keyError) := by
  constructor
  · intro e hEq
    subst hEq
    rfl
  · intro fields hEq hTf
    subst hEq
    have h1 : jGet (JVal.obj fields) "tf" = .error .keyError := by
      simp [jGet, hTf]
    simp only [query_bm25, unpackIndex, h1]
    rfl

theorem query_load_error_spec_witness :
    query_bm25 (.error "read failed") "question" 3 = .ok [] ∧
    query_bm25 (.ok (JVal.obj [("n", JVal.null)])) "question" 3 =
      .error .keyError :=
  ⟨(query_load_error_spec (.error "read failed") "question" 3).1 _ rfl,
   (query_load_error_spec (.ok (JVal.obj [("n", JVal.null)])) "question" 3).2
     _ rfl rfl⟩

/-! ## C7: prompt selection and fallback -/

/-- C7: `build_prompt` keeps exactly the hits scoring at least `MIN_SCORE`
    in their incoming order; when none qualifies it falls back to the first
    two hits of the original list; consequently, whenever any hits exist the
    surviving list and the assembled context are non-empty. -/
theorem build_prompt_select_spec (hits : List VHit) (minScore : ℚ) :
    (hits.filter (fun h => minScore ≤ h.score) = [] →
      selectRelevant hits minScore = hits.take 2) ∧
    (hits.filter (fun h => minScore ≤ h.score) ≠ [] →
      selectRelevant hits minScore = hits.filter (fun h => minScore ≤ h.score)) ∧
    (hits ≠ [] →
      selectRelevant hits minScore ≠ [] ∧ promptContext hits minScore ≠ "") := by
  refine ⟨?_, ?_, ?_⟩
  · intro hEmpty
    simp [selectRelevant, hEmpty]
  · intro hNe
    simp [selectRelevant, List.isEmpty_iff, hNe]
  · intro hNe
    have hSel : selectRelevant hits minScore ≠ [] := by
      by_cases hE : hits.filter (fun h => decide (minScore ≤ h.score)) = []
      · rw [show selectRelevant hits minScore = hits.take 2 by
          simp [selectRelevant, hE]]
        cases hits with
        | nil => exact absurd rfl hNe
        | cons v rest => simp
      · rw [show selectRelevant hits minScore =
            hits.filter (fun h => decide (minScore ≤ h.score)) by
          simp [selectRelevant, List.isEmpty_iff, hE]]
        exact hE
    exact ⟨hSel, promptContext_ne_empty hits minScore hSel⟩

theorem build_prompt_select_spec_witness :
    ((([⟨"a", ⟨none, none⟩, 1/10⟩, ⟨"b", ⟨none, none⟩, 1/10⟩,
        ⟨"c", ⟨none, none⟩, 1/10⟩] : List VHit)).filter
      (fun h => (9/10 : ℚ) ≤ h.score) = []) ∧
    selectRelevant
      [⟨"a", ⟨none, none⟩, 1/10⟩, ⟨"b", ⟨none, none⟩, 1/10⟩,
       ⟨"c", ⟨none, none⟩, 1/10⟩] (9/10) =
      ([⟨"a", ⟨none, none⟩, 1/10⟩, ⟨"b", ⟨none, none⟩, 1/10⟩,
        ⟨"c", ⟨none, none⟩, 1/10⟩] : List VHit).take 2 ∧
    promptContext
      [⟨"a", ⟨none, none⟩, 1/10⟩, ⟨"b", ⟨none, none⟩, 1/10⟩,
       ⟨"c", ⟨none, none⟩, 1/10⟩] (9/10) ≠ "" :=
  ⟨by norm_num [List.filter],
   (build_prompt_select_spec _ _).1 (by norm_num [List.filter]),
   ((build_prompt_select_spec _ _).2.2 (by simp)).2⟩

/-! ## C3: the hybrid merger -/

lemma pruneDups_cons (h : Hit) (rest : List Hit) :
    pruneDups (h :: rest) =
    h :: pruneDups (rest.filter (fun g => locKey g ≠ locKey h)) := by
  rw [pruneDups.eq_def]

lemma dedup_fold_eq (hits : List Hit) (seen : List (Option String × Option Int))
    (acc : List Hit) :
    (hits.foldl (fun st h =>
      if locKey h ∈ st.1 then st else (locKey h :: st.1, st.2 ++ [h]))
      (seen, acc)).2 =
    acc ++ pruneDups (hits.filter (fun g => decide (locKey g ∉ seen))) := by
  induction hits generalizing seen acc with
  | nil => simp [pruneDups]
  | cons h rest ih =>
    by_cases hMem : locKey h ∈ seen
    · simp only [List.foldl_cons, if_pos hMem, List.filter_cons]
      rw [ih seen acc]
      simp [hMem]
    · simp only [List.foldl_cons, if_neg hMem, List.filter_cons]
      rw [ih (locKey h :: seen) (acc ++ [h])]
      have hKeep : decide (locKey h ∉ seen) = true := by simpa using hMem
      rw [hKeep]
      simp only [if_true, List.append_assoc, List.singleton_append]
      rw [pruneDups_cons]
      congr 2
      rw [List.filter_filter]
      congr 1
      apply List.filter_congr
      intro g _
      simp [List.mem_cons, not_or, Bool.and_comm, decide_eq_true_eq]

lemma dedupByKey_eq (hits : List Hit) : dedupByKey hits = pruneDups hits := by
  have h := dedup_fold_eq hits [] []
  simpa [dedupByKey] using h

/-- C3: `retrieve` concatenates vector hits before lexical hits, keeps only
    the first occurrence of each locator key in that order (so a later
    lexical hit for a seen locator is dropped regardless of score), then
    stable-sorts the deduplicated list descending by score — equal scores
    keep their concatenation order, i.e. origin priority (vector first) then
    arrival order — and truncates to the requested `top_k`. -/
theorem retrieve_merge_spec (vh lh : List Hit) (topK : ℕ) :
    dedupByKey (vh ++ lh) = pruneDups (vh ++ lh) ∧
    ∃ s : List Hit,
      retrieveMerge vh lh topK = s.take topK ∧
      s.Perm (dedupByKey (vh ++ lh)) ∧
      s.Pairwise (fun a b : Hit => b.score ≤ a.score) ∧
      (∀ x y : Hit, y.score ≤ x.score →
        List.Sublist [x, y] (dedupByKey (vh ++ lh)) → List.Sublist [x, y] s) := by
  have trans : ∀ a b c : Hit, (fun a b : Hit => decide (b.score ≤ a.score)) a b →
      (fun a b : Hit => decide (b.score ≤ a.score)) b c →
      (fun a b : Hit => decide (b.score ≤ a.score)) a c := by
    intro a b c h1 h2
    simp only [decide_eq_true_eq] at *
    exact le_trans h2 h1
  have total : ∀ a b : Hit, ((fun a b : Hit => decide (b.score ≤ a.score)) a b ||
      (fun a b : Hit => decide (b.score ≤ a.score)) b a) := by
    intro a b
    simpa using le_total b.score a.score
  refine ⟨dedupByKey_eq _, (dedupByKey (vh ++ lh)).mergeSort
    (fun a b : Hit => decide (b.score ≤ a.score)), rfl,
    List.mergeSort_perm _ _, ?_, ?_⟩
  · have hs := List.sorted_mergeSort trans total (dedupByKey (vh ++ lh))
    exact hs.imp (fun h => by simpa using h)
  · intro x y hxy hsub
    exact List.pair_sublist_mergeSort trans total (decide_eq_true hxy) hsub

/-! ## C10: top-K truncation before id resolution -/

lemma pyIndex_lt_length {xs : List String} {x : String} {i : ℕ}
    (h : pyIndex xs x = some i) : i < xs.length := by
  induction xs generalizing i with
  | nil => simp [pyIndex] at h
  | cons y rest ih =>
    by_cases hEq : y = x
    · simp only [pyIndex, if_pos hEq, Option.some.injEq] at h
      subst h
      simp
    · simp only [pyIndex, if_neg hEq, Option.map_eq_some'] at h
      obtain ⟨j, hj, hji⟩ := h
      have hlt := ih hj
      simp only [List.length_cons]
      omega

lemma resolveHits_ok {μ : Type} (ids texts : List String) (metas : List μ)
    (hT : texts.length = ids.length) (hM : metas.length = ids.length)
    (l : List (String × ℝ)) :
    resolveHits ids texts metas l = .ok (l.filterMap (fun p =>
      match pyIndex ids p.1 with
      | none => none
      | some i =>
        match texts[i]?, metas[i]? with
        | some tx, some m => some (tx, m, p.2)
        | _, _ => none)) := by
  induction l with
  | nil => rfl
  | cons p rest ih =>
    obtain ⟨d, s⟩ := p
    cases hIdx : pyIndex ids d with
    | none => simp only [resolveHits, hIdx, ih, List.filterMap_cons]
    | some i =>
      have hi : i < ids.length := pyIndex_lt_length hIdx
      have hTx : texts[i]? = some texts[i] := by
        rw [List.getElem?_eq_getElem (by omega)]
      have hMx : metas[i]? = some metas[i] := by
        rw [List.getElem?_eq_getElem (by omega)]
      simp only [resolveHits, hIdx, hTx, hMx, ih, List.filterMap_cons]
      rfl

/-- C10: `query_bm25` truncates the scored documents to the top-K before
    resolving doc ids; a top-K doc id absent from `ids` is silently skipped
    (so the result can be shorter than `min(top_k, #scored)` even when other
    scored documents exist), the result never exceeds `top_k` entries, and
    with parallel `ids`/`texts`/`metas` lists the resolution step never
    raises. -/
theorem query_resolution_spec {μ : Type} (ids texts : List String)
    (metas : List μ) (scores : List (String × ℝ)) (topK : ℕ)
    (hT : texts.length = ids.length) (hM : metas.length = ids.length) :
    ∃ res, resolveHits ids texts metas (rankTopK scores topK) = .ok res ∧
      res.length ≤ topK ∧
      res = (rankTopK scores topK).filterMap (fun p =>
        match pyIndex ids p.1 with
        | none => none
        | some i =>
          match texts[i]?, metas[i]? with
          | some tx, some m => some (tx, m, p.2)
          | _, _ => none) := by
  refine ⟨_, resolveHits_ok ids texts metas hT hM _, ?_, rfl⟩
  calc (List.filterMap _ (rankTopK scores topK)).length
      ≤ (rankTopK scores topK).length := List.length_filterMap_le _ _
    _ ≤ topK := by
        unfold rankTopK
        exact List.length_take_le _ _

lemma mergeSort_pair {α : Type} (le : α → α → Bool) (x y : α) :
    List.mergeSort [x, y] le = if le x y then [x, y] else [y, x] := by
  rw [List.mergeSort]
  simp only [List.splitInTwo, List.splitAt_eq]
  simp [List.mergeSort, List.merge]

theorem query_resolution_spec_witness :
    (["ty"].length = ["y"].length) ∧ ([(0 : ℕ)].length = ["y"].length) ∧
    (∃ res, resolveHits ["y"] ["ty"] [(0 : ℕ)]
        (rankTopK [("x", (5 : ℝ)), ("y", 3)] 1) = .ok res ∧
      res.length ≤ 1) ∧
    rankTopK [("x", (5 : ℝ)), ("y", 3)] 1 = [("x", 5)] ∧
    resolveHits ["y"] ["ty"] [(0 : ℕ)] (rankTopK [("x", (5 : ℝ)), ("y", 3)] 1) =
      .ok [] := by
  have hRank : rankTopK [("x", (5 : ℝ)), ("y", 3)] 1 = [("x", 5)] := by
    unfold rankTopK
    rw [mergeSort_pair]
    rw [if_pos (by norm_num)]
    rfl
  obtain ⟨res, h1, h2, h3⟩ :=
    query_resolution_spec ["y"] ["ty"] [(0 : ℕ)] [("x", (5 : ℝ)), ("y", 3)] 1
      rfl rfl
  refine ⟨rfl, rfl, ⟨res, h1, h2⟩, hRank, ?_⟩
  rw [hRank]
  rfl

/-! ## C5: ranking and tie-breaking in `query_bm25` -/

lemma bm25DocScore_fold (tfd : List (String × ℕ)) (df : List (String × ℕ))
    (dlv : ℕ) (avgdl : ℝ) (N : ℕ) (k1 b delta : ℝ) (qts : List String)
    (s0 : ℝ) :
    List.foldlM (fun s term =>
      match alookup tfd term with
      | none => Except.ok s
      | some f =>
        match (some dlv : Option ℕ) with
        | none => Except.error PyErr.keyError
        | some dlv =>
          Except.ok (s + bm25Idf N (dfGet df term) *
            bm25Norm f dlv avgdl k1 b delta)) s0 qts =
    .ok (s0 + bm25DocVal qts tfd df dlv avgdl N k1 b delta) := by
  induction qts generalizing s0 with
  | nil =>
    show (Except.ok s0 : Except PyErr ℝ) = _
    simp [bm25DocVal]
  | cons t rest ih =>
    rw [List.foldlM_cons]
    cases hLk : alookup tfd t with
    | none =>
      simp only [hLk]
      rw [show ((Except.ok s0 : Except PyErr ℝ) >>= fun s =>
        List.foldlM _ s rest) = List.foldlM _ s0 rest from rfl]
      rw [ih s0]
      simp [bm25DocVal, hLk]
    | some f =>
      simp only [hLk]
      rw [show ((Except.ok (s0 + bm25Idf N (dfGet df t) *
          bm25Norm f dlv avgdl k1 b delta) : Except PyErr ℝ) >>= fun s =>
        List.foldlM _ s rest) = List.foldlM _ (s0 + bm25Idf N (dfGet df t) *
          bm25Norm f dlv avgdl k1 b delta) rest from rfl]
      rw [ih]
      simp only [bm25DocVal, List.map_cons, List.sum_cons, hLk]
      ring_nf

lemma bm25DocScore_some (qts : List String) (tfd : List (String × ℕ))
    (df : List (String × ℕ)) (dlv : ℕ) (avgdl : ℝ) (N : ℕ) (k1 b delta : ℝ) :
    bm25DocScore qts tfd df (some dlv) avgdl N k1 b delta =
    .ok (bm25DocVal qts tfd df dlv avgdl N k1 b delta) := by
  unfold bm25DocScore
  rw [bm25DocScore_fold]
  ring_nf

/-- C5 amended: the ranking step of `query_bm25` stable-sorts the scores
    mapping descending by score and truncates to `top_k`: the result is
    sorted descending, and two documents with exactly equal scores keep
    their relative order in the scores mapping (the `tf` iteration order),
    which is deterministic across runs — not the lexicographic docId order. -/
theorem rank_topk_spec (scores : List (String × ℝ)) (topK : ℕ) :
    ∃ s : List (String × ℝ),
      rankTopK scores topK = s.take topK ∧
      s.Perm scores ∧
      s.Pairwise (fun a b => b.2 ≤ a.2) ∧
      (∀ x y : String × ℝ, y.2 ≤ x.2 →
        List.Sublist [x, y] scores → List.Sublist [x, y] s) := by
  have trans : ∀ a b c : String × ℝ,
      (fun a b : String × ℝ => decide (b.2 ≤ a.2)) a b →
      (fun a b : String × ℝ => decide (b.2 ≤ a.2)) b c →
      (fun a b : String × ℝ => decide (b.2 ≤ a.2)) a c := by
    intro a b c h1 h2
    simp only [decide_eq_true_eq] at *
    exact le_trans h2 h1
  have total : ∀ a b : String × ℝ,
      ((fun a b : String × ℝ => decide (b.2 ≤ a.2)) a b ||
       (fun a b : String × ℝ => decide (b.2 ≤ a.2)) b a) := by
    intro a b
    simpa using le_total b.2 a.2
  refine ⟨scores.mergeSort (fun a b : String × ℝ => decide (b.2 ≤ a.2)), rfl,
    List.mergeSort_perm _ _, ?_, ?_⟩
  · have hs := List.sorted_mergeSort trans total scores
    exact hs.imp (fun h => by simpa using h)
  · intro x y hxy hsub
    exact List.pair_sublist_mergeSort trans total (decide_eq_true hxy) hsub

/-- C5 counterexample: two documents (`"b"` listed before `"a"` in the
    snapshot's `tf` mapping) with identical statistics receive exactly equal
    BM25 scores, and `query_bm25` returns `"b"`'s hit before `"a"`'s —
    the insertion order of the scores mapping, not the lexicographic docId
    order the claim describes (`"a" < "b"`). -/
theorem query_tiebreak_cex :
    query_bm25_core ⟨[("b", [("abc", 1)]), ("a", [("abc", 1)])], [("abc", 2)],
        [("b", 3), ("a", 3)], 3, 2, ["b", "a"], ["b", "a"],
        [JVal.null, JVal.null]⟩ "abc" 5 =
      .ok [("b", JVal.null, Real.log (6/5) * 2),
           ("a", JVal.null, Real.log (6/5) * 2)] ∧
    "a" < "b" := by
  have hVal : bm25DocVal ["abc"] [("abc", 1)] [("abc", 2)] 3 3 2 (3/2) (3/4) 1 =
      Real.log (6/5) * 2 := by
    norm_num [bm25DocVal, alookup, dfGet, bm25Idf, bm25Norm]
  have hPos : (0 : ℝ) < Real.log (6/5) * 2 :=
    mul_pos (Real.log_pos (by norm_num)) two_pos
  have hTok : BmQuery.tokenize "abc" = ["abc"] := by decide
  have hScore : score_bm25 ["abc"] [("b", [("abc", 1)]), ("a", [("abc", 1)])]
      [("abc", 2)] [("b", 3), ("a", 3)] 3 2 (3/2) (3/4) 1 =
      .ok [("b", Real.log (6/5) * 2), ("a", Real.log (6/5) * 2)] := by
    have hb : alookup [("b", 3), ("a", 3)] "b" = some 3 := by decide
    have ha : alookup [("b", 3), ("a", 3)] "a" = some 3 := by decide
    simp only [score_bm25, hb, ha, bm25DocScore_some, hVal]
    simp only [bind, Except.bind]
    rw [if_pos hPos, if_pos hPos]
  refine ⟨?_, by simp only [String.lt_iff_toList_lt]; decide⟩
  unfold query_bm25_core
  rw [hTok]
  simp only [hScore]
  simp only [bind, Except.bind]
  have hRank : rankTopK [("b", Real.log (6/5) * 2), ("a", Real.log (6/5) * 2)] 5 =
      [("b", Real.log (6/5) * 2), ("a", Real.log (6/5) * 2)] := by
    unfold rankTopK
    rw [mergeSort_pair]
    rw [if_pos (by simp)]
    rfl
  rw [hRank]
  rfl

/-! ## C4: BM25 monotonicity in the term frequency -/

lemma score_bm25_single (qts : List String) (d : String)
    (tfd df : List (String × ℕ)) (dl : ℕ) (avgdl : ℝ) (N : ℕ)
    (k1 b delta : ℝ) :
    score_bm25 qts [(d, tfd)] df [(d, dl)] avgdl N k1 b delta =
    .ok (if 0 < bm25DocVal qts tfd df dl avgdl N k1 b delta then
      [(d, bm25DocVal qts tfd df dl avgdl N k1 b delta)] else []) := by
  have hDl : alookup [(d, dl)] d = some dl := by simp [alookup]
  simp only [score_bm25, hDl, bm25DocScore_some]
  simp only [bind, Except.bind]

lemma bm25Idf_nonneg {N dfT : ℕ} (h : dfT ≤ N) : 0 ≤ bm25Idf N dfT := by
  unfold bm25Idf
  apply Real.log_nonneg
  have hc : (dfT : ℝ) ≤ (N : ℝ) := Nat.cast_le.mpr h
  have hx : 0 ≤ ((N : ℝ) - (dfT : ℝ) + 1/2) / ((dfT : ℝ) + 1/2) := by
    apply div_nonneg
    · linarith
    · positivity
  linarith

lemma bm25Idf_pos {N dfT : ℕ} (h : dfT ≤ N) : 0 < bm25Idf N dfT := by
  unfold bm25Idf
  apply Real.log_pos
  have hc : (dfT : ℝ) ≤ (N : ℝ) := Nat.cast_le.mpr h
  have hx : 0 < ((N : ℝ) - (dfT : ℝ) + 1/2) / ((dfT : ℝ) + 1/2) := by
    apply div_pos
    · linarith
    · positivity
  linarith

lemma alookup_aset {α : Type} (m : List (String × α)) (k : String) (v : α)
    (u : String) :
    alookup (aset m k v) u = if k = u then some v else alookup m u := by
  induction m with
  | nil => simp [aset, alookup]
  | cons p rest ih =>
    obtain ⟨k2, v2⟩ := p
    by_cases h2 : k2 = k
    · subst h2
      by_cases hu : k2 = u
      · subst hu
        simp [aset, alookup]
      · simp [aset, alookup, hu]
    · by_cases hu : k2 = u
      · subst hu
        have : ¬ k = k2 := fun hEq => h2 hEq.symm
        simp [aset, alookup, h2, this]
      · simp [aset, alookup, h2, hu, ih]

lemma bm25Norm_monotone {dl : ℕ} {avgdl k1 b delta : ℝ} {f1 f2 : ℕ}
    (hk1 : 0 < k1) (hdelta : 0 < delta)
    (hC : delta ≤ k1 * (1 - b + b * (dl : ℝ) / avgdl)) (hf : f1 ≤ f2) :
    bm25Norm f1 dl avgdl k1 b delta ≤ bm25Norm f2 dl avgdl k1 b delta := by
  have hCpos : 0 < k1 * (1 - b + b * (dl : ℝ) / avgdl) :=
    lt_of_lt_of_le hdelta hC
  have hd1 : 0 < (f1 : ℝ) + k1 * (1 - b + b * (dl : ℝ) / avgdl) :=
    add_pos_of_nonneg_of_pos (Nat.cast_nonneg f1) hCpos
  have hd2 : 0 < (f2 : ℝ) + k1 * (1 - b + b * (dl : ℝ) / avgdl) :=
    add_pos_of_nonneg_of_pos (Nat.cast_nonneg f2) hCpos
  have hfc : (f1 : ℝ) ≤ (f2 : ℝ) := Nat.cast_le.mpr hf
  unfold bm25Norm
  rw [div_le_div_iff₀ hd1 hd2]
  nlinarith [mul_nonneg (sub_nonneg.mpr hfc) (sub_nonneg.mpr hC),
    mul_pos hk1 hCpos]

lemma bm25DocVal_monotone (qts : List String) (t : String)
    (tfd df : List (String × ℕ)) (dl : ℕ) (avgdl : ℝ) (N : ℕ)
    (k1 b delta : ℝ) (f1 f2 : ℕ)
    (hk1 : 0 < k1) (hdelta : 0 < delta)
    (hC : delta ≤ k1 * (1 - b + b * (dl : ℝ) / avgdl))
    (hdf : dfGet df t ≤ N) (hf : f1 ≤ f2) :
    bm25DocVal qts (aset tfd t f1) df dl avgdl N k1 b delta ≤
    bm25DocVal qts (aset tfd t f2) df dl avgdl N k1 b delta := by
  unfold bm25DocVal
  apply List.sum_le_sum
  intro u hu
  by_cases hut : t = u
  · subst hut
    simp only [alookup_aset, if_pos rfl]
    exact mul_le_mul_of_nonneg_left
      (bm25Norm_monotone hk1 hdelta hC hf) (bm25Idf_nonneg hdf)
  · simp only [alookup_aset, if_neg hut]
    exact le_refl _

/-- C4 counterexample: with the default hyperparameters, a fixed `docLen = 3`
    and `avgdl = 10`, raising the query term's frequency in document `"d"`
    from 1 to 2 *strictly decreases* the document's BM25 score: the additive
    `delta` sits inside the normalizer, which is decreasing in `f` whenever
    `k1 * (1 - b + b * docLen/avgdl) < delta`. -/
theorem bm25_monotonicity_cex :
    scoreOf (score_bm25 ["abc"] [("d", [("abc", 2)])] [("abc", 1)] [("d", 3)]
        10 2 (3/2) (3/4) 1) "d" <
    scoreOf (score_bm25 ["abc"] [("d", [("abc", 1)])] [("abc", 1)] [("d", 3)]
        10 2 (3/2) (3/4) 1) "d" := by
  have hV1 : bm25DocVal ["abc"] [("abc", 1)] [("abc", 1)] 3 10 2 (3/2) (3/4) 1 =
      Real.log 2 * (400/137) := by
    norm_num [bm25DocVal, alookup, dfGet, bm25Idf, bm25Norm]
  have hV2 : bm25DocVal ["abc"] [("abc", 2)] [("abc", 1)] 3 10 2 (3/2) (3/4) 1 =
      Real.log 2 * (600/217) := by
    norm_num [bm25DocVal, alookup, dfGet, bm25Idf, bm25Norm]
  have hLog : (0 : ℝ) < Real.log 2 := Real.log_pos (by norm_num)
  rw [score_bm25_single, score_bm25_single, hV1, hV2]
  rw [if_pos (by positivity), if_pos (by positivity)]
  simp only [scoreOf, alookup, if_pos rfl, Option.getD_some]
  exact mul_lt_mul_of_pos_left (by norm_num) hLog

/-- C4 amended: increasing a term's frequency (holding `docLen`, `avgdl`,
    `N` and `df` fixed) never decreases the document's `score_bm25` score
    *provided* `delta ≤ k1 * (1 - b + b * docLen/avgdl)`; the defaults
    satisfy this only for documents with `docLen/avgdl ≥ 5/9`, and the score
    strictly decreases for shorter documents. -/
theorem bm25_monotone_of_normalizer_ge_delta
    (qts : List String) (d t : String) (tfd df : List (String × ℕ)) (dl : ℕ)
    (avgdl : ℝ) (N : ℕ) (k1 b delta : ℝ) (f1 f2 : ℕ)
    (hk1 : 0 < k1) (hdelta : 0 < delta)
    (hC : delta ≤ k1 * (1 - b + b * (dl : ℝ) / avgdl))
    (hdf : dfGet df t ≤ N) (hf : f1 ≤ f2) :
    scoreOf (score_bm25 qts [(d, aset tfd t f1)] df [(d, dl)]
      avgdl N k1 b delta) d ≤
    scoreOf (score_bm25 qts [(d, aset tfd t f2)] df [(d, dl)]
      avgdl N k1 b delta) d := by
  have hv := bm25DocVal_monotone qts t tfd df dl avgdl N k1 b delta f1 f2
    hk1 hdelta hC hdf hf
  rw [score_bm25_single, score_bm25_single]
  by_cases h1 : 0 < bm25DocVal qts (aset tfd t f1) df dl avgdl N k1 b delta
  · rw [if_pos h1, if_pos (lt_of_lt_of_le h1 hv)]
    simpa [scoreOf, alookup] using hv
  · rw [if_neg h1]
    by_cases h2 : 0 < bm25DocVal qts (aset tfd t f2) df dl avgdl N k1 b delta
    · rw [if_pos h2]
      have h3 : (0 : ℝ) ≤ bm25DocVal qts (aset tfd t f2) df dl avgdl N
          k1 b delta := le_of_lt h2
      simpa [scoreOf, alookup] using h3
    · rw [if_neg h2]

theorem bm25_monotone_of_normalizer_ge_delta_witness :
    ((0 : ℝ) < 3/2) ∧ ((0 : ℝ) < 1) ∧
    ((1 : ℝ) ≤ (3/2) * (1 - 3/4 + (3/4) * ((10 : ℕ) : ℝ) / 10)) ∧
    (dfGet [("abc", 1)] "abc" ≤ 2) ∧ ((1 : ℕ) ≤ 2) ∧
    (scoreOf (score_bm25 ["abc"] [("d", aset [] "abc" 1)] [("abc", 1)]
        [("d", 10)] 10 2 (3/2) (3/4) 1) "d" ≤
      scoreOf (score_bm25 ["abc"] [("d", aset [] "abc" 2)] [("abc", 1)]
        [("d", 10)] 10 2 (3/2) (3/4) 1) "d") :=
  ⟨by norm_num, by norm_num, by norm_num, by decide, by decide,
    bm25_monotone_of_normalizer_ge_delta ["abc"] "d" "abc" [] [("abc", 1)]
      10 10 2 (3/2) (3/4) 1 1 2 (by norm_num) (by norm_num) (by norm_num)
      (by decide) (by decide)⟩

/-! ## C1: the scoring formula and the domain of the result -/

lemma bm25Norm_pos {f dl : ℕ} {avgdl k1 b delta : ℝ} (hf : 0 < f)
    (hk1 : 0 < k1) (hb0 : 0 < b) (hb1 : b ≤ 1) (hdelta : 0 < delta)
    (havg : 0 < avgdl) : 0 < bm25Norm f dl avgdl k1 b delta := by
  have hfc : (0 : ℝ) < (f : ℝ) := Nat.cast_pos.mpr hf
  unfold bm25Norm
  apply div_pos
  · apply mul_pos <;> linarith
  · have h2 : 0 ≤ b * (dl : ℝ) / avgdl := by positivity
    have h3 : 0 ≤ k1 * (1 - b + b * (dl : ℝ) / avgdl) :=
      mul_nonneg (le_of_lt hk1) (by linarith)
    linarith

lemma list_sum_pos_of_mem {l : List ℝ} (hnn : ∀ x ∈ l, 0 ≤ x) {a : ℝ}
    (ha : a ∈ l) (hpa : 0 < a) : 0 < l.sum := by
  induction l with
  | nil => simp at ha
  | cons x rest ih =>
    rw [List.sum_cons]
    rcases List.mem_cons.mp ha with hax | har
    · subst hax
      have hr : 0 ≤ rest.sum :=
        List.sum_nonneg (fun y hy => hnn y (List.mem_cons_of_mem _ hy))
      linarith
    · have hx : 0 ≤ x := hnn x (List.mem_cons_self _ _)
      have := ih (fun y hy => hnn y (List.mem_cons_of_mem _ hy)) har
      linarith

lemma bm25DocVal_pos_iff (qts : List String) (tfd df : List (String × ℕ))
    (dl : ℕ) (avgdl : ℝ) (N : ℕ) (k1 b delta : ℝ)
    (hk1 : 0 < k1) (hb0 : 0 < b) (hb1 : b ≤ 1) (hdelta : 0 < delta)
    (havg : 0 < avgdl)
    (htfd : ∀ t f, alookup tfd t = some f → 0 < f)
    (hdf : ∀ t, dfGet df t ≤ N) :
    0 < bm25DocVal qts tfd df dl avgdl N k1 b delta ↔
    ∃ t ∈ qts, (alookup tfd t).isSome := by
  unfold bm25DocVal
  constructor
  · intro hpos
    by_contra hno
    push_neg at hno
    have hz : ∀ x ∈ qts.map (fun term =>
        match alookup tfd term with
        | none => (0 : ℝ)
        | some f => bm25Idf N (dfGet df term) * bm25Norm f dl avgdl k1 b delta),
        x = 0 := by
      intro x hx
      obtain ⟨t, ht, rfl⟩ := List.mem_map.mp hx
      have hn := hno t ht
      cases hLk : alookup tfd t with
      | none => simp
      | some f => simp [hLk] at hn
    rw [List.sum_eq_zero hz] at hpos
    exact lt_irrefl 0 hpos
  · rintro ⟨t, ht, hsome⟩
    obtain ⟨f, hf⟩ := Option.isSome_iff_exists.mp hsome
    apply list_sum_pos_of_mem (a := bm25Idf N (dfGet df t) *
      bm25Norm f dl avgdl k1 b delta)
    · intro x hx
      obtain ⟨u, hu, rfl⟩ := List.mem_map.mp hx
      cases hLk : alookup tfd u with
      | none => simp
      | some g =>
        simp only
        exact le_of_lt (mul_pos (bm25Idf_pos (hdf u))
          (bm25Norm_pos (htfd u g hLk) hk1 hb0 hb1 hdelta havg))
    · have := List.mem_map_of_mem (fun term =>
        match alookup tfd term with
        | none => (0 : ℝ)
        | some f => bm25Idf N (dfGet df term) *
            bm25Norm f dl avgdl k1 b delta) ht
      simpa [hf] using this
    · exact mul_pos (bm25Idf_pos (hdf t))
        (bm25Norm_pos (htfd t f hf) hk1 hb0 hb1 hdelta havg)

/-- C1 amended: for hyperparameters with `0 < k1`, `0 < b ≤ 1`, `0 < delta`
    (the defaults `k1 = 1.5, b = 0.75, delta = 1.0` qualify) and well-formed
    statistics — positive `avgdl`, a `doc_len` entry for every scored
    document, strictly positive stored term frequencies and `df ≤ N` —
    `score_bm25` returns the mapping that assigns to each document of `tf`
    the sum, over query tokens present in that document, of
    `ln(1 + (N - df + 0.5)/(df + 0.5)) * (f + delta)*(k1 + 1)/(f + k1*(1 - b
    + b*docLen/avgdl))`, keeping exactly the documents with strictly
    positive total — which are exactly the documents sharing at least one
    query token.  (For general positive parameters, e.g. `b = 2`, a sharing
    document can score non-positively and be dropped.) -/
theorem score_bm25_domain_formula
    (qts : List String) (tf : List (String × List (String × ℕ)))
    (df doc_len : List (String × ℕ)) (avgdl : ℝ) (N : ℕ) (k1 b delta : ℝ)
    (hk1 : 0 < k1) (hb0 : 0 < b) (hb1 : b ≤ 1) (hdelta : 0 < delta)
    (havg : 0 < avgdl)
    (hdl : ∀ p ∈ tf, (alookup doc_len p.1).isSome)
    (htf : ∀ p ∈ tf, ∀ t f, alookup p.2 t = some f → 0 < f)
    (hdf : ∀ t, dfGet df t ≤ N) :
    score_bm25 qts tf df doc_len avgdl N k1 b delta =
      .ok (tf.filterMap (fun p =>
        if 0 < bm25DocVal qts p.2 df ((alookup doc_len p.1).getD 0) avgdl N
            k1 b delta then
          some (p.1, bm25DocVal qts p.2 df ((alookup doc_len p.1).getD 0)
            avgdl N k1 b delta)
        else none)) ∧
    ∀ p ∈ tf,
      (0 < bm25DocVal qts p.2 df ((alookup doc_len p.1).getD 0) avgdl N
          k1 b delta ↔ ∃ t ∈ qts, (alookup p.2 t).isSome) := by
  constructor
  · induction tf with
    | nil => rfl
    | cons p rest ih =>
      obtain ⟨d, tfd⟩ := p
      obtain ⟨dlv, hdlv⟩ := Option.isSome_iff_exists.mp
        (hdl (d, tfd) (List.mem_cons_self _ _))
      have hRest := ih (fun q hq => hdl q (List.mem_cons_of_mem _ hq))
        (fun q hq => htf q (List.mem_cons_of_mem _ hq))
      simp only [score_bm25, hdlv, bm25DocScore_some, hRest]
      simp only [bind, Except.bind, List.filterMap_cons]
      simp only [hdlv, Option.getD_some]
      by_cases hPos : 0 < bm25DocVal qts tfd df dlv avgdl N k1 b delta
      · rw [if_pos hPos, if_pos hPos]
      · rw [if_neg hPos, if_neg hPos]
  · intro p hp
    exact bm25DocVal_pos_iff qts p.2 df _ avgdl N k1 b delta hk1 hb0 hb1
      hdelta havg (htf p hp) hdf

theorem score_bm25_domain_formula_witness :
    ((0 : ℝ) < 3/2) ∧ ((0 : ℝ) < 3/4) ∧ ((3/4 : ℝ) ≤ 1) ∧ ((0 : ℝ) < 1) ∧
    ((0 : ℝ) < 10) ∧
    (∀ p ∈ [("d", [("abc", 1)])], (alookup [("d", 3)] p.1).isSome) ∧
    (∀ p ∈ [("d", [("abc", 1)])], ∀ t f, alookup p.2 t = some f → 0 < f) ∧
    (∀ t, dfGet [("abc", 1)] t ≤ 2) ∧
    score_bm25 ["abc"] [("d", [("abc", 1)])] [("abc", 1)] [("d", 3)] 10 2
        (3/2) (3/4) 1 =
      .ok [("d", bm25DocVal ["abc"] [("abc", 1)] [("abc", 1)] 3 10 2
        (3/2) (3/4) 1)] ∧
    (0 < bm25DocVal ["abc"] [("abc", 1)] [("abc", 1)] 3 10 2 (3/2) (3/4) 1 ↔
      ∃ t ∈ ["abc"], (alookup [("abc", 1)] t).isSome) := by
  have hdf : ∀ t, dfGet [("abc", 1)] t ≤ 2 := by
    intro t
    by_cases h : "abc" = t
    · simp [dfGet, alookup, if_pos h]
    · simp [dfGet, alookup, if_neg h]
  have htf : ∀ p ∈ [("d", [("abc", 1)])], ∀ t f,
      alookup p.2 t = some f → 0 < f := by
    intro p hp t f hf
    simp only [List.mem_singleton] at hp
    subst hp
    simp only [alookup] at hf
    by_cases h : "abc" = t
    · rw [if_pos h] at hf
      injection hf with hf1
      omega
    · rw [if_neg h] at hf
      exact absurd hf (by simp)
  obtain ⟨hEq, hIff⟩ := score_bm25_domain_formula ["abc"]
    [("d", [("abc", 1)])] [("abc", 1)] [("d", 3)] 10 2 (3/2) (3/4) 1
    (by norm_num) (by norm_num) (by norm_num) (by norm_num) (by norm_num)
    (by decide) htf hdf
  have hA : (alookup [("d", 3)] "d").getD 0 = 3 := by decide
  have hPos : 0 < bm25DocVal ["abc"] [("abc", 1)] [("abc", 1)] 3 10 2
      (3/2) (3/4) 1 := by
    rw [show bm25DocVal ["abc"] [("abc", 1)] [("abc", 1)] 3 10 2
        (3/2) (3/4) 1 = Real.log 2 * (400/137) by
      norm_num [bm25DocVal, alookup, dfGet, bm25Idf, bm25Norm]]
    exact mul_pos (Real.log_pos (by norm_num)) (by norm_num)
  refine ⟨by norm_num, by norm_num, by norm_num, by norm_num, by norm_num,
    by decide, htf, hdf, ?_, ?_⟩
  · rw [hEq]
    simp only [List.filterMap_cons, List.filterMap_nil, hA]
    rw [if_pos hPos]
  · have h1 := hIff ("d", [("abc", 1)]) (List.mem_singleton_self _)
    simpa [hA] using h1

/-- C1 counterexample: with positive parameters `k1 = 2, b = 2, delta = 1`
    the single document `"d"` shares the query token `"abc"` yet its total
    score is negative (`ln(4/3) * (-10)`), so `score_bm25` returns the empty
    mapping: the domain is *not* the set of documents sharing a query token
    for every choice of positive parameters. -/
theorem score_bm25_domain_cex :
    score_bm25 ["abc"] [("d", [("abc", 1)])] [("abc", 1)] [("d", 1)] 10 1
      2 2 1 = .ok [] ∧
    (alookup [("abc", 1)] "abc").isSome ∧
    ((0 : ℝ) < 2) ∧ ((0 : ℝ) < 1) := by
  have hVal : bm25DocVal ["abc"] [("abc", 1)] [("abc", 1)] 1 10 1 2 2 1 =
      Real.log (4/3) * (-10) := by
    norm_num [bm25DocVal, alookup, dfGet, bm25Idf, bm25Norm]
  have hNeg : bm25DocVal ["abc"] [("abc", 1)] [("abc", 1)] 1 10 1 2 2 1 ≤ 0 := by
    rw [hVal]
    have := Real.log_pos (show (1 : ℝ) < 4/3 by norm_num)
    nlinarith
  refine ⟨?_, by decide, by norm_num, by norm_num⟩
  rw [score_bm25_single, if_neg (not_lt.mpr hNeg)]

/-! ## C2: the statistics invariant of the index builder -/

lemma tokStep_fold_tf (toks : List String) (tfd0 df0 : String → ℕ)
    (seen0 : List String) (t : String) :
    ((toks.foldl tokStep (tfd0, df0, seen0)).1) t = tfd0 t + toks.count t := by
  induction toks generalizing tfd0 df0 seen0 with
  | nil => simp
  | cons tok rest ih =>
    rw [List.foldl_cons]
    have hstep : ∀ dfx seenx, (tokStep (tfd0, dfx, seenx) tok).1 =
        bumpCount tfd0 tok := by
      intro dfx seenx
      unfold tokStep
      split <;> rfl
    by_cases hMem : tok ∈ seen0
    · rw [show tokStep (tfd0, df0, seen0) tok =
        (bumpCount tfd0 tok, df0, seen0) by simp [tokStep, hMem]]
      rw [ih]
      by_cases ht : t = tok
      · subst ht
        simp [bumpCount, List.count_cons]
        omega
      · simp [bumpCount, ht, List.count_cons, fun h : tok = t => ht h.symm]
    · rw [show tokStep (tfd0, df0, seen0) tok =
        (bumpCount tfd0 tok, bumpCount df0 tok, tok :: seen0) by
          simp [tokStep, hMem]]
      rw [ih]
      by_cases ht : t = tok
      · subst ht
        simp [bumpCount, List.count_cons]
        omega
      · simp [bumpCount, ht, List.count_cons, fun h : tok = t => ht h.symm]

lemma tokStep_fold_df (toks : List String) (tfd0 df0 : String → ℕ)
    (seen0 : List String) (t : String) :
    ((toks.foldl tokStep (tfd0, df0, seen0)).2.1) t =
      df0 t + (if t ∈ toks ∧ t ∉ seen0 then 1 else 0) := by
  induction toks generalizing tfd0 df0 seen0 with
  | nil => simp
  | cons tok rest ih =>
    rw [List.foldl_cons]
    by_cases hMem : tok ∈ seen0
    · rw [show tokStep (tfd0, df0, seen0) tok =
        (bumpCount tfd0 tok, df0, seen0) by simp [tokStep, hMem]]
      rw [ih]
      by_cases hts : t ∈ seen0
      · simp [hts]
      · have htt : t ≠ tok := fun h => hts (h ▸ hMem)
        simp [List.mem_cons, htt, hts]
    · rw [show tokStep (tfd0, df0, seen0) tok =
        (bumpCount tfd0 tok, bumpCount df0 tok, tok :: seen0) by
          simp [tokStep, hMem]]
      rw [ih]
      by_cases ht : t = tok
      · subst ht
        simp [bumpCount, List.mem_cons, hMem]
      · simp only [bumpCount, if_neg ht, List.mem_cons]
        by_cases hts : t ∈ seen0
        · simp [hts, ht]
        · simp [hts, ht]

lemma build_fold_df (docs : List (String × String)) (st : BuildAcc)
    (t : String) :
    ((docs.foldl docStep st).df) t =
      st.df t + docs.countP (fun p => decide (t ∈ BmIndex.tokenize p.2)) := by
  induction docs generalizing st with
  | nil => simp
  | cons doc rest ih =>
    rw [List.foldl_cons, ih]
    have hdf : (docStep st doc).df t =
        st.df t + (if t ∈ BmIndex.tokenize doc.2 then 1 else 0) := by
      simp only [docStep]
      rw [tokStep_fold_df]
      simp
    rw [hdf, List.countP_cons]
    by_cases h : t ∈ BmIndex.tokenize doc.2
    · simp [h]
      omega
    · simp [h]

lemma build_fold_tf_other (docs : List (String × String)) (st : BuildAcc)
    (d : String) (h : d ∉ docs.map Prod.fst) :
    (docs.foldl docStep st).tf d = st.tf d := by
  induction docs generalizing st with
  | nil => rfl
  | cons doc rest ih =>
    rw [List.foldl_cons]
    simp only [List.map_cons, List.mem_cons, not_or] at h
    rw [ih _ h.2]
    simp [docStep, h.1]

lemma build_fold_tf (docs : List (String × String)) (st : BuildAcc)
    (p : String × String) (hnd : (docs.map Prod.fst).Nodup) (hp : p ∈ docs)
    (h0 : ∀ t, st.tf p.1 t = 0) (t : String) :
    (docs.foldl docStep st).tf p.1 t = (BmIndex.tokenize p.2).count t := by
  induction docs generalizing st with
  | nil => simp at hp
  | cons doc rest ih =>
    rw [List.foldl_cons]
    simp only [List.map_cons, List.nodup_cons] at hnd
    rcases List.mem_cons.mp hp with hpd | hpr
    · subst hpd
      rw [build_fold_tf_other rest _ _ hnd.1]
      have hTf : (docStep st p).tf p.1 =
          ((BmIndex.tokenize p.2).foldl tokStep (st.tf p.1, st.df, [])).1 := by
        simp [docStep]
      rw [hTf, tokStep_fold_tf, h0]
      omega
    · have hne1 : p.1 ≠ doc.1 := by
        intro hEq
        exact hnd.1 (hEq ▸ List.mem_map_of_mem Prod.fst hpr)
      apply ih _ hnd.2 hpr
      intro t2
      have hKeep : (docStep st doc).tf p.1 = st.tf p.1 := by
        simp [docStep, hne1]
      rw [hKeep]
      exact h0 t2

lemma aset_of_alookup_none {α : Type} (m : List (String × α)) (k : String)
    (v : α) (h : alookup m k = none) : aset m k v = m ++ [(k, v)] := by
  induction m with
  | nil => rfl
  | cons q rest ih =>
    obtain ⟨k2, v2⟩ := q
    simp only [alookup] at h
    by_cases h2 : k2 = k
    · rw [if_pos h2] at h
      exact absurd h (by simp)
    · rw [if_neg h2] at h
      simp [aset, h2, ih h]

lemma alookup_append_of_none {α : Type} (m1 m2 : List (String × α))
    (k : String) (h : alookup m1 k = none) :
    alookup (m1 ++ m2) k = alookup m2 k := by
  induction m1 with
  | nil => rfl
  | cons q rest ih =>
    obtain ⟨k2, v2⟩ := q
    simp only [alookup] at h
    by_cases h2 : k2 = k
    · rw [if_pos h2] at h
      exact absurd h (by simp)
    · rw [if_neg h2] at h
      simp only [List.cons_append, alookup, if_neg h2]
      exact ih h

lemma build_fold_len (docs : List (String × String)) (st : BuildAcc)
    (hnd : (docs.map Prod.fst).Nodup)
    (hfresh : ∀ p ∈ docs, alookup st.doc_len p.1 = none) :
    (docs.foldl docStep st).doc_len =
      st.doc_len ++ docs.map (fun p => (p.1, (BmIndex.tokenize p.2).length)) := by
  induction docs generalizing st with
  | nil => simp
  | cons doc rest ih =>
    rw [List.foldl_cons]
    simp only [List.map_cons, List.nodup_cons] at hnd
    have hfr : alookup st.doc_len doc.1 = none :=
      hfresh doc (List.mem_cons_self _ _)
    have hstep : (docStep st doc).doc_len =
        st.doc_len ++ [(doc.1, (BmIndex.tokenize doc.2).length)] := by
      simp only [docStep]
      exact aset_of_alookup_none _ _ _ hfr
    have hfresh2 : ∀ p ∈ rest, alookup (docStep st doc).doc_len p.1 = none := by
      intro p hpr
      rw [hstep,
        alookup_append_of_none _ _ _ (hfresh p (List.mem_cons_of_mem _ hpr))]
      have hne1 : doc.1 ≠ p.1 := by
        intro hEq
        exact hnd.1 (hEq ▸ List.mem_map_of_mem Prod.fst hpr)
      simp [alookup, hne1]
    rw [ih _ hnd.2 hfresh2, hstep]
    simp [List.map_cons]

/-- C2: on a non-empty corpus with distinct doc ids, the statistics built by
    `build_bm25_index` satisfy: `doc_len` records each document's tokenized
    length, `avgdl = sum(doc_len.values()) / N`, `df[t]` counts the distinct
    documents whose tokenization contains `t` (each document at most once,
    however often `t` repeats inside it), and `tf[doc][t]` is `t`'s
    occurrence count in `doc`'s tokenization. -/
theorem build_index_stats_spec (docs : List (String × String))
    (hne : docs ≠ []) (hnodup : (docs.map Prod.fst).Nodup) :
    ∃ stats, build_bm25_index docs = .ok stats ∧
      stats.N = docs.length ∧
      stats.doc_len = docs.map (fun p => (p.1, (BmIndex.tokenize p.2).length)) ∧
      stats.avgdl = (sumValues stats.doc_len : ℚ) / (docs.length : ℚ) ∧
      (∀ t, stats.df t =
        docs.countP (fun p => decide (t ∈ BmIndex.tokenize p.2))) ∧
      (∀ p ∈ docs, ∀ t, stats.tf p.1 t = (BmIndex.tokenize p.2).count t) := by
  have hN : docs.length ≠ 0 := fun h => hne (List.length_eq_zero.mp h)
  have hLen := build_fold_len docs ⟨fun _ => 0, fun _ _ => 0, []⟩ hnodup
    (fun p _ => rfl)
  unfold build_bm25_index
  simp only [pyDiv, if_neg hN]
  refine ⟨_, rfl, rfl, ?_, rfl, ?_, ?_⟩
  · simpa using hLen
  · intro t
    have := build_fold_df docs ⟨fun _ => 0, fun _ _ => 0, []⟩ t
    simpa using this
  · intro p hp t
    exact build_fold_tf docs ⟨fun _ => 0, fun _ _ => 0, []⟩ p hnodup hp
      (fun _ => rfl) t

theorem build_index_stats_spec_witness :
    ([("d1", "machine learning machine"), ("d2", "deep learning")] ≠
      ([] : List (String × String))) ∧
    (([("d1", "machine learning machine"), ("d2", "deep learning")].map
      Prod.fst).Nodup) ∧
    (∃ stats, build_bm25_index
        [("d1", "machine learning machine"), ("d2", "deep learning")] =
        .ok stats ∧
      stats.N = 2 ∧
      stats.avgdl = (sumValues stats.doc_len : ℚ) / 2 ∧
      stats.df "learning" =
        [("d1", "machine learning machine"), ("d2", "deep learning")].countP
          (fun p => decide ("learning" ∈ BmIndex.tokenize p.2)) ∧
      stats.tf "d1" "machine" =
        (BmIndex.tokenize "machine learning machine").count "machine") := by
  obtain ⟨stats, h1, h2, h3, h4, h5, h6⟩ := build_index_stats_spec
    [("d1", "machine learning machine"), ("d2", "deep learning")]
    (by simp) (by decide)
  refine ⟨by simp, by decide, stats, h1, h2, ?_, h5 "learning", ?_⟩
  · rw [h4]
    norm_num
  · exact h6 ("d1", "machine learning machine") (by simp) "machine"
